import Mathlib

/-!
Verification of the percentile-clip sky estimator.

The repository's notebook calls `calculate_sky` from the module
`percentile_clip`; that module's code is not part of the repository
snapshot, so the estimator is modelled here from the written design
(RegionPartitioner, QualityFilter, ClippedStatistic,
ContaminationClassifier, SkyAggregator) and from the notebook's own
documentation of the interface.  All numeric work is done in `ℚ`; the
square root used by the standard-deviation ("rms") quantities is kept as
an uninterpreted parameter `sqrt_fn` of the configuration, since the
exact square root is irrational on `ℚ` and every property below holds
for an arbitrary choice of that function.
-/

/-- Modelled from the spec: a PixelGrid is a 2-D array of real-valued
pixel intensities, here dimensions plus an intensity function. -/
structure Grid where
  H : ℕ
  W : ℕ
  px : ℕ → ℕ → ℚ

/-- Modelled from the spec: a SubRegion is a rectangular slice
descriptor `(row_start, row_end, col_start, col_end)`. -/
structure SubRegion where
  row_start : ℕ
  row_end : ℕ
  col_start : ℕ
  col_end : ℕ
deriving DecidableEq, Repr

/-- Modelled from the spec: per-region classification tag. -/
inductive Classification where
  | good
  | sourceContaminated
  | maskContaminated
deriving DecidableEq, Repr

/-- Modelled from the spec: per-sub-region outcome.  Contaminated
regions carry `none` (the sentinel/NaN of the design) in the value
fields. -/
structure RegionResult where
  cls : Classification
  sky_med : Option ℚ
  rms_med : Option ℚ
  sky_mean : Option ℚ
  rms_mean : Option ℚ
  iters : ℕ
  centroid_row : ℚ
  centroid_col : ℚ
deriving DecidableEq, Repr

/-- Modelled from the spec: configuration of the estimator.  `bin_size`,
`has_DQ` and `dq_fraction` are the notebook's parameters; the clipping
percentiles, the iteration cap and the classifier constants are the
configuration the design says must be exposed; `sqrt_fn` stands for the
square root used by standard deviations. -/
structure Config where
  bin_size : ℕ
  has_DQ : Bool
  dq_fraction : ℚ
  p_lo : ℚ
  p_hi : ℚ
  max_iter : ℕ
  reject_frac : ℚ
  skew_mult : ℚ
  sqrt_fn : ℚ → ℚ

/-- Modelled from the spec: error taxonomy of the estimator. -/
inductive SkyError where
  | invalidParameter
  | noUsableRegions (n_total n_bad n_bad_px n_good : ℕ)
deriving DecidableEq, Repr

/-- Modelled from the spec: the aggregate SkyReport. -/
structure SkyReport where
  calc_sky : ℚ
  calc_rms : ℚ
  calc_sky_mean : ℚ
  calc_rms_mean : ℚ
  N_total_regions : ℕ
  N_bad_regions : ℕ
  N_bad_px_regions : ℕ
  N_good_regions : ℕ
  sky_arr : List (Option ℚ)
  rms_arr : List (Option ℚ)
  region_bounds : List SubRegion
  lowest5perc_ind : List ℕ
  bad_ind : List ℕ
  badpx_ind : List ℕ
  mean_x_pos : ℚ
  mean_y_pos : ℚ
  std_x_pos : ℚ
  std_y_pos : ℚ
deriving DecidableEq, Repr

/-- Modelled from the spec: number of regions along one axis.  The
notebook states that leftover pixels are added to the top-most and
right-most sub-regions, and the data-model invariant says the last
row/column of regions absorbs the remainder and is therefore at least
the requested size, so the count is the floor of `len / b`. -/
def nRegions (len b : ℕ) : ℕ := len / b

/-- Modelled from the spec: the sub-region in axis cell `(i, j)`; the far
edge of the last region along each axis is extended to the axis length. -/
def mkSub (H W b i j : ℕ) : SubRegion :=
  { row_start := i * b
    row_end := if i + 1 = nRegions H b then H else (i + 1) * b
    col_start := j * b
    col_end := if j + 1 = nRegions W b then W else (j + 1) * b }

/-- Modelled from the spec: RegionPartitioner, producing the sub-regions
in row-major order (top-to-bottom, left-to-right). -/
def partition (H W b : ℕ) : List SubRegion :=
  (List.range (nRegions H b)).flatMap
    (fun i => (List.range (nRegions W b)).map (fun j => mkSub H W b i j))

/-- Whether pixel `(r, c)` lies inside the sub-region. -/
def containsB (s : SubRegion) (r c : ℕ) : Bool :=
  decide (s.row_start ≤ r ∧ r < s.row_end ∧ s.col_start ≤ c ∧ c < s.col_end)

/-- The `(row, column)` cells of a sub-region, row-major. -/
def regionCells (s : SubRegion) : List (ℕ × ℕ) :=
  (List.range' s.row_start (s.row_end - s.row_start)).flatMap
    (fun r => (List.range' s.col_start (s.col_end - s.col_start)).map (fun c => (r, c)))

/-- Modelled from the spec: QualityFilter's flagged fraction,
`count(flag != 0) / region_pixel_count`. -/
def flaggedFraction (dq : ℕ → ℕ → ℕ) (s : SubRegion) : ℚ :=
  (((regionCells s).countP (fun p => decide (dq p.1 p.2 ≠ 0)) : ℚ)) /
    (((regionCells s).length : ℚ))

/-- The unflagged pixel values of a sub-region; with no quality mask in
use every pixel is treated as unflagged. -/
def unflaggedValues (g : Grid) (dq : ℕ → ℕ → ℕ) (cfg : Config) (s : SubRegion) : List ℚ :=
  (regionCells s).filterMap
    (fun p => if cfg.has_DQ = true ∧ dq p.1 p.2 ≠ 0 then none else some (g.px p.1 p.2))

/-- Stable insertion of `x` into a list sorted by `key`. -/
def insertSorted {α : Type} (key : α → ℚ) (x : α) : List α → List α
  | [] => [x]
  | y :: ys => if key x ≤ key y then x :: y :: ys else y :: insertSorted key x ys

/-- Stable ascending insertion sort by a rational key. -/
def sortByKey {α : Type} (key : α → ℚ) : List α → List α
  | [] => []
  | x :: xs => insertSorted key x (sortByKey key xs)

/-- Arithmetic mean of a list of rationals (0 on the empty list). -/
def meanQ (xs : List ℚ) : ℚ := xs.sum / (xs.length : ℚ)

/-- Median of a list of rationals: middle element of the sorted list,
or the average of the two middle elements for an even length. -/
def medianQ (xs : List ℚ) : ℚ :=
  let s := sortByKey (fun q => q) xs
  if s.length = 0 then 0
  else if s.length % 2 = 1 then s.getD (s.length / 2) 0
  else (s.getD (s.length / 2 - 1) 0 + s.getD (s.length / 2) 0) / 2

/-- Mean squared deviation of a list about a centre `c`. -/
def varAboutQ (c : ℚ) (xs : List ℚ) : ℚ :=
  ((xs.map (fun x => (x - c) ^ 2)).sum) / ((xs.length : ℚ))

/-- Modelled from the spec: percentile of a value list, by linear
interpolation on the ascending sorted list. -/
def percentileQ (p : ℚ) (xs : List ℚ) : ℚ :=
  let s := sortByKey (fun q => q) xs
  if s.length = 0 then 0
  else
    let h : ℚ := p * ((s.length : ℚ) - 1) / 100
    let i : ℕ := (⌊h⌋).toNat
    let lo := s.getD i 0
    let hi := s.getD (min (i + 1) (s.length - 1)) 0
    lo + (h - ((⌊h⌋ : ℤ) : ℚ)) * (hi - lo)

/-- Modelled from the spec: one clipping pass, discarding the values
outside the low/high percentile bounds of the active set. -/
def clipStep (cfg : Config) (a : List ℚ) : List ℚ :=
  a.filter (fun x => decide (percentileQ cfg.p_lo a ≤ x ∧ x ≤ percentileQ cfg.p_hi a))

/-- Modelled from the spec: the iterative clipping loop.  It repeats
`clipStep` until the active-set size is unchanged between two successive
iterations or the fuel (the maximum iteration count) runs out, and
returns the surviving set together with the number of iterations
performed. -/
def clipRun (cfg : Config) : List ℚ → ℕ → List ℚ × ℕ
  | a, 0 => (a, 0)
  | a, fuel + 1 =>
    if (clipStep cfg a).length = a.length then (clipStep cfg a, 1)
    else ((clipRun cfg (clipStep cfg a) fuel).1, (clipRun cfg (clipStep cfg a) fuel).2 + 1)

/-- Converged clipped statistics of one sub-region's value list. -/
structure ClipStats where
  sky_med : ℚ
  rms_med : ℚ
  sky_mean : ℚ
  rms_mean : ℚ
  iters : ℕ
  n_initial : ℕ
  n_final : ℕ
deriving DecidableEq, Repr

/-- Modelled from the spec: ClippedStatistic.  Returns `none` when the
unflagged pixel count drops to zero during clipping (including an
initially empty value list); otherwise the median-based and mean-based
location/scale pairs on the surviving set, with the iteration count. -/
def clippedStatistic (cfg : Config) (vals : List ℚ) : Option ClipStats :=
  if ((clipRun cfg vals cfg.max_iter).1).length = 0 then none
  else
    some
      { sky_med := medianQ (clipRun cfg vals cfg.max_iter).1
        rms_med := cfg.sqrt_fn (varAboutQ (medianQ (clipRun cfg vals cfg.max_iter).1)
          (clipRun cfg vals cfg.max_iter).1)
        sky_mean := meanQ (clipRun cfg vals cfg.max_iter).1
        rms_mean := cfg.sqrt_fn (varAboutQ (meanQ (clipRun cfg vals cfg.max_iter).1)
          (clipRun cfg vals cfg.max_iter).1)
        iters := (clipRun cfg vals cfg.max_iter).2
        n_initial := vals.length
        n_final := ((clipRun cfg vals cfg.max_iter).1).length }

/-- Modelled from the spec: ContaminationClassifier.  A region is tagged
source-contaminated when clipping rejected a disproportionately large
fraction of its pixels, or when the converged mean deviates from the
converged median by more than a small multiple of the converged rms. -/
def isSourceLike (cfg : Config) (st : ClipStats) : Bool :=
  decide (cfg.reject_frac < ((st.n_initial : ℚ) - (st.n_final : ℚ)) / (st.n_initial : ℚ)) ||
  decide (cfg.skew_mult * st.rms_med < |st.sky_mean - st.sky_med|)

/-- Mean row index of the pixels of a sub-region. -/
def centroidRow (s : SubRegion) : ℚ :=
  ((s.row_start : ℚ) + (s.row_end : ℚ) - 1) / 2

/-- Mean column index of the pixels of a sub-region. -/
def centroidCol (s : SubRegion) : ℚ :=
  ((s.col_start : ℚ) + (s.col_end : ℚ) - 1) / 2

/-- The result of a region rejected by the QualityFilter: it is
classified mask-contaminated and receives no further processing. -/
def maskSentinel (s : SubRegion) : RegionResult :=
  { cls := .maskContaminated
    sky_med := none
    rms_med := none
    sky_mean := none
    rms_mean := none
    iters := 0
    centroid_row := centroidRow s
    centroid_col := centroidCol s }

/-- Modelled from the spec: the per-region pipeline.  The QualityFilter
gate runs first (only when the quality mask is in use, and with a strict
comparison against `dq_fraction`); then the clipped statistic, whose
failure is recovered locally as a contaminated result; then the
contamination classifier. -/
def processRegion (g : Grid) (dq : ℕ → ℕ → ℕ) (cfg : Config) (s : SubRegion) : RegionResult :=
  if cfg.has_DQ = true ∧ cfg.dq_fraction < flaggedFraction dq s then maskSentinel s
  else
    match clippedStatistic cfg (unflaggedValues g dq cfg s) with
    | none =>
      { cls := .sourceContaminated
        sky_med := none
        rms_med := none
        sky_mean := none
        rms_mean := none
        iters := (clipRun cfg (unflaggedValues g dq cfg s) cfg.max_iter).2
        centroid_row := centroidRow s
        centroid_col := centroidCol s }
    | some st =>
      if isSourceLike cfg st then
        { cls := .sourceContaminated
          sky_med := none
          rms_med := none
          sky_mean := none
          rms_mean := none
          iters := st.iters
          centroid_row := centroidRow s
          centroid_col := centroidCol s }
      else
        { cls := .good
          sky_med := some st.sky_med
          rms_med := some st.rms_med
          sky_mean := some st.sky_mean
          rms_mean := some st.rms_mean
          iters := st.iters
          centroid_row := centroidRow s
          centroid_col := centroidCol s }

/-- The ordered per-region results of one estimation call. -/
def regionResults (g : Grid) (dq : ℕ → ℕ → ℕ) (cfg : Config) : List RegionResult :=
  (partition g.H g.W cfg.bin_size).map (processRegion g dq cfg)

/-- Pair every element with its position, starting at `i`. -/
def enumIdx {α : Type} : ℕ → List α → List (ℕ × α)
  | _, [] => []
  | i, x :: xs => (i, x) :: enumIdx (i + 1) xs

/-- The good regions, with their row-major indices. -/
def goodEnum (rs : List RegionResult) : List (ℕ × RegionResult) :=
  (enumIdx 0 rs).filter (fun p => decide (p.2.cls = .good))

/-- The source-contaminated regions, with their row-major indices. -/
def badEnum (rs : List RegionResult) : List (ℕ × RegionResult) :=
  (enumIdx 0 rs).filter (fun p => decide (p.2.cls = .sourceContaminated))

/-- The mask-contaminated regions, with their row-major indices. -/
def badpxEnum (rs : List RegionResult) : List (ℕ × RegionResult) :=
  (enumIdx 0 rs).filter (fun p => decide (p.2.cls = .maskContaminated))

/-- Indices of the source-contaminated regions. -/
def badIndices (rs : List RegionResult) : List ℕ := (badEnum rs).map Prod.fst

/-- Indices of the mask-contaminated regions. -/
def badpxIndices (rs : List RegionResult) : List ℕ := (badpxEnum rs).map Prod.fst

/-- The sorting key of a good region: its median-based sky value. -/
def skyKey (p : ℕ × RegionResult) : ℚ := p.2.sky_med.getD 0

/-- Modelled from the spec: size of the estimate set, the lowest 5% of
the good regions rounded up, and at least one region. -/
def nSelect (n : ℕ) : ℕ := max 1 ((n + 19) / 20)

/-- Modelled from the spec: the estimate set, the good regions ranked by
median-based sky value ascending with the lowest `nSelect` kept. -/
def selectedGoods (rs : List RegionResult) : List (ℕ × RegionResult) :=
  (sortByKey skyKey (goodEnum rs)).take (nSelect (goodEnum rs).length)

/-- Modelled from the spec: SkyAggregator.  Fails with `NoUsableRegions`
(carrying the region counts) when no region is good; otherwise reduces
the selected set by medians and records the centroid diagnostics. -/
def aggregate (sqrtF : ℚ → ℚ) (rs : List RegionResult) (bounds : List SubRegion) :
    Except SkyError SkyReport :=
  if (goodEnum rs).length = 0 then
    .error (.noUsableRegions rs.length (badEnum rs).length (badpxEnum rs).length
      (goodEnum rs).length)
  else
    .ok
      { calc_sky := medianQ ((selectedGoods rs).map (fun p => p.2.sky_med.getD 0))
        calc_rms := medianQ ((selectedGoods rs).map (fun p => p.2.rms_med.getD 0))
        calc_sky_mean := medianQ ((selectedGoods rs).map (fun p => p.2.sky_mean.getD 0))
        calc_rms_mean := medianQ ((selectedGoods rs).map (fun p => p.2.rms_mean.getD 0))
        N_total_regions := rs.length
        N_bad_regions := (badEnum rs).length
        N_bad_px_regions := (badpxEnum rs).length
        N_good_regions := (goodEnum rs).length
        sky_arr := rs.map (fun r => r.sky_med)
        rms_arr := rs.map (fun r => r.rms_med)
        region_bounds := bounds
        lowest5perc_ind := (selectedGoods rs).map Prod.fst
        bad_ind := badIndices rs
        badpx_ind := badpxIndices rs
        mean_x_pos := meanQ ((selectedGoods rs).map (fun p => p.2.centroid_col))
        mean_y_pos := meanQ ((selectedGoods rs).map (fun p => p.2.centroid_row))
        std_x_pos := sqrtF (varAboutQ (meanQ ((selectedGoods rs).map (fun p => p.2.centroid_col)))
          ((selectedGoods rs).map (fun p => p.2.centroid_col)))
        std_y_pos := sqrtF (varAboutQ (meanQ ((selectedGoods rs).map (fun p => p.2.centroid_row)))
          ((selectedGoods rs).map (fun p => p.2.centroid_row))) }

/-- Modelled from the spec: the core entry point.  Parameters are
validated first (`InvalidParameter`); then the partition, the per-region
pipeline and the aggregation run. -/
def estimate_sky (g : Grid) (dq : ℕ → ℕ → ℕ) (cfg : Config) : Except SkyError SkyReport :=
  if 0 < cfg.bin_size ∧ cfg.bin_size ≤ g.H ∧ cfg.bin_size ≤ g.W ∧
      0 ≤ cfg.dq_fraction ∧ cfg.dq_fraction ≤ 1 then
    aggregate cfg.sqrt_fn (regionResults g dq cfg) (partition g.H g.W cfg.bin_size)
  else .error .invalidParameter

/-- Modelled from the spec and the notebook call sites: the dictionary
returned by `calculate_sky` wraps every field of the SkyReport in a
one-element list (the notebook indexes every field at position 0, and
feeds the remaining fields to a one-row data frame). -/
structure SkyDict where
  calc_sky : List ℚ
  calc_rms : List ℚ
  N_total_regions : List ℕ
  N_bad_regions : List ℕ
  N_bad_px_regions : List ℕ
  N_good_regions : List ℕ
  calc_sky_mean : List ℚ
  calc_rms_mean : List ℚ
  sky_arr : List (List (Option ℚ))
  rms_arr : List (List (Option ℚ))
  cutouts : List (List SubRegion)
  lowest5perc_ind : List (List ℕ)
  bad_ind : List (List ℕ)
  badpx_ind : List (List ℕ)
  mean_x_pos : List ℚ
  mean_y_pos : List ℚ
  std_x_pos : List ℚ
  std_y_pos : List ℚ
deriving DecidableEq, Repr

/-- The one-element-list wrapping applied to a SkyReport. -/
def skyDictOf (rep : SkyReport) : SkyDict :=
  { calc_sky := [rep.calc_sky]
    calc_rms := [rep.calc_rms]
    N_total_regions := [rep.N_total_regions]
    N_bad_regions := [rep.N_bad_regions]
    N_bad_px_regions := [rep.N_bad_px_regions]
    N_good_regions := [rep.N_good_regions]
    calc_sky_mean := [rep.calc_sky_mean]
    calc_rms_mean := [rep.calc_rms_mean]
    sky_arr := [rep.sky_arr]
    rms_arr := [rep.rms_arr]
    cutouts := [rep.region_bounds]
    lowest5perc_ind := [rep.lowest5perc_ind]
    bad_ind := [rep.bad_ind]
    badpx_ind := [rep.badpx_ind]
    mean_x_pos := [rep.mean_x_pos]
    mean_y_pos := [rep.mean_y_pos]
    std_x_pos := [rep.std_x_pos]
    std_y_pos := [rep.std_y_pos] }

/-- Modelled from the spec and the notebook call sites: the function
`calculate_sky`, returning the dictionary-shaped output. -/
def calculate_sky (g : Grid) (dq : ℕ → ℕ → ℕ) (cfg : Config) : Except SkyError SkyDict :=
  (estimate_sky g dq cfg).map skyDictOf

/-- A constant 2x2 test image. -/
def gConst : Grid := { H := 2, W := 2, px := fun _ _ => 1 }

/-- A quality grid with no flagged pixel. -/
def dqZero : ℕ → ℕ → ℕ := fun _ _ => 0

/-- A quality grid with every pixel flagged. -/
def dqOne : ℕ → ℕ → ℕ := fun _ _ => 1

/-- A baseline configuration with the quality mask off. -/
def cfgBase : Config :=
  { bin_size := 2
    has_DQ := false
    dq_fraction := 1/5
    p_lo := 5
    p_hi := 95
    max_iter := 10
    reject_frac := 1/10
    skew_mult := 3
    sqrt_fn := fun q => q }

/-- The baseline configuration with the quality mask on, threshold 0.2. -/
def cfgDQ : Config := { cfgBase with has_DQ := true }

/-- The baseline configuration with the quality mask on, threshold 1. -/
def cfgDQ1 : Config := { cfgBase with has_DQ := true, dq_fraction := 1 }

/-- The single sub-region of the 2x2 test image at bin size 2. -/
def s00 : SubRegion := { row_start := 0, row_end := 2, col_start := 0, col_end := 2 }

/-- A single good region used by concrete witnesses. -/
def rsGood : List RegionResult :=
  [{ cls := .good
     sky_med := some 1
     rms_med := some 2
     sky_mean := some 3
     rms_mean := some 4
     iters := 1
     centroid_row := 5
     centroid_col := 6 }]

/-! ## Partitioner lemmas -/

theorem map_congr_mem {α β : Type} {l : List α} {f g : α → β}
    (h : ∀ a ∈ l, f a = g a) : l.map f = l.map g := by
  induction l with
  | nil => rfl
  | cons x xs ih =>
    simp only [List.map_cons]
    exact congrArg₂ _ (h x (List.mem_cons_self x xs)) (ih (fun a ha => h a (List.mem_cons_of_mem x ha)))

/-- Flattening a row-major double loop into a single flat index. -/
theorem range_flatMap_map {α : Type} (f : ℕ → ℕ → α) (m n : ℕ) :
    (List.range m).flatMap (fun i => (List.range n).map (f i)) =
      (List.range (m * n)).map (fun k => f (k / n) (k % n)) := by
  induction m with
  | zero => simp
  | succ m ih =>
    rcases Nat.eq_zero_or_pos n with hn | hn
    · subst hn; simp
    · rw [List.range_succ, List.flatMap_append, ih, Nat.succ_mul, List.range_add,
        List.map_append, List.flatMap_cons, List.flatMap_nil, List.append_nil,
        List.map_map]
      refine congrArg _ (map_congr_mem ?_)
      intro x hx
      rw [List.mem_range] at hx
      have hdiv : (m * n + x) / n = m := by
        rw [Nat.mul_comm m n, Nat.mul_add_div hn, Nat.div_eq_of_lt hx, Nat.add_zero]
      have hmod : (m * n + x) % n = x := by
        rw [Nat.mul_comm m n, Nat.mul_add_mod, Nat.mod_eq_of_lt hx]
      simp [Function.comp, hdiv, hmod]

/-- The partition as a single row-major indexed list. -/
theorem partition_eq_map (H W b : ℕ) :
    partition H W b =
      (List.range (nRegions H b * nRegions W b)).map
        (fun k => mkSub H W b (k / nRegions W b) (k % nRegions W b)) :=
  range_flatMap_map (mkSub H W b) _ _

theorem partition_length (H W b : ℕ) :
    (partition H W b).length = nRegions H b * nRegions W b := by
  rw [partition_eq_map, List.length_map, List.length_range]

theorem mem_partition {H W b : ℕ} {s : SubRegion} :
    s ∈ partition H W b ↔
      ∃ i, i < nRegions H b ∧ ∃ j, j < nRegions W b ∧ s = mkSub H W b i j := by
  simp only [partition, List.mem_flatMap, List.mem_map, List.mem_range]
  constructor
  · rintro ⟨i, hi, j, hj, rfl⟩
    exact ⟨i, hi, j, hj, rfl⟩
  · rintro ⟨i, hi, j, hj, rfl⟩
    exact ⟨i, hi, j, hj, rfl⟩

/-- Interval membership along one axis characterises the axis index. -/
theorem axis_mem_iff (L b i r : ℕ) (hb : 0 < b) (hbL : b ≤ L)
    (hi : i < L / b) (hr : r < L) :
    (i * b ≤ r ∧ r < (if i + 1 = L / b then L else (i + 1) * b)) ↔
      i = min (r / b) (L / b - 1) := by
  have hn1 : 1 ≤ L / b := (Nat.one_le_div_iff hb).mpr hbL
  by_cases h : i + 1 = L / b
  · simp only [if_pos h]
    constructor
    · rintro ⟨h1, _⟩
      have hle : i ≤ r / b := (Nat.le_div_iff_mul_le hb).mpr h1
      have hle' : L / b - 1 ≤ r / b := by omega
      rw [min_eq_right hle']
      omega
    · intro hmin
      refine ⟨?_, hr⟩
      have hle : L / b - 1 ≤ r / b := by
        rcases Nat.le_total (r / b) (L / b - 1) with hc | hc
        · rw [min_eq_left hc] at hmin; omega
        · exact hc
      have h1 : i ≤ r / b := by omega
      calc i * b ≤ r / b * b := Nat.mul_le_mul_right b h1
        _ ≤ r := Nat.div_mul_le_self r b
  · simp only [if_neg h]
    have hi1 : i + 1 < L / b := by omega
    constructor
    · rintro ⟨h1, h2⟩
      have hge : i ≤ r / b := (Nat.le_div_iff_mul_le hb).mpr h1
      have hlt : r / b < i + 1 := (Nat.div_lt_iff_lt_mul hb).mpr h2
      have heq : r / b = i := by omega
      rw [heq, min_eq_left (by omega)]
    · intro hmin
      have hrb : r / b = i := by
        rcases Nat.le_total (r / b) (L / b - 1) with hc | hc
        · rw [min_eq_left hc] at hmin; omega
        · rw [min_eq_right hc] at hmin; omega
      constructor
      · calc i * b = r / b * b := by rw [hrb]
          _ ≤ r := Nat.div_mul_le_self r b
      · exact (Nat.div_lt_iff_lt_mul hb).mp (by omega)

/-- Containment of a pixel in the `(i, j)` sub-region characterises both
axis indices. -/
theorem containsB_mkSub_iff (H W b i j r c : ℕ) (hb : 0 < b) (hbH : b ≤ H)
    (hbW : b ≤ W) (hi : i < H / b) (hj : j < W / b) (hr : r < H) (hc : c < W) :
    containsB (mkSub H W b i j) r c = true ↔
      (i = min (r / b) (H / b - 1) ∧ j = min (c / b) (W / b - 1)) := by
  have hrow := axis_mem_iff H b i r hb hbH hi hr
  have hcol := axis_mem_iff W b j c hb hbW hj hc
  simp only [containsB, mkSub, nRegions, decide_eq_true_eq]
  constructor
  · rintro ⟨h1, h2, h3, h4⟩
    exact ⟨hrow.mp ⟨h1, h2⟩, hcol.mp ⟨h3, h4⟩⟩
  · rintro ⟨h1, h2⟩
    obtain ⟨hr1, hr2⟩ := hrow.mpr h1
    obtain ⟨hc1, hc2⟩ := hcol.mpr h2
    exact ⟨hr1, hr2, hc1, hc2⟩

/-- A predicate true at exactly one point of `range N` counts once. -/
theorem countP_range_eq_one (N k0 : ℕ) (h : k0 < N) (p : ℕ → Bool)
    (hp : ∀ k, k < N → (p k = true ↔ k = k0)) :
    (List.range N).countP p = 1 := by
  induction N with
  | zero => omega
  | succ N ih =>
    rw [List.range_succ, List.countP_append]
    by_cases hk : k0 = N
    · have h0 : (List.range N).countP p = 0 := by
        rw [List.countP_eq_zero]
        intro a ha hpa
        rw [List.mem_range] at ha
        have := (hp a (by omega)).mp hpa
        omega
      have h1 : List.countP p [N] = 1 := by
        have : p N = true := (hp N (by omega)).mpr hk.symm
        simp [List.countP_cons, this]
      omega
    · have h0 : (List.range N).countP p = 1 :=
        ih (by omega) (fun k hk2 => hp k (by omega))
      have h1 : List.countP p [N] = 0 := by
        have : ¬ p N = true := by
          intro hpa
          exact hk ((hp N (by omega)).mp hpa).symm
        simp [List.countP_cons, this]
      omega

/-- Exact tiling: every in-grid pixel lies in exactly one produced
sub-region. -/
theorem partition_tiles (H W b r c : ℕ) (hb : 0 < b) (hbH : b ≤ H) (hbW : b ≤ W)
    (hr : r < H) (hc : c < W) :
    (partition H W b).countP (fun s => containsB s r c) = 1 := by
  have hnW : 0 < W / b := (Nat.one_le_div_iff hb).mpr hbW
  have hnH : 0 < H / b := (Nat.one_le_div_iff hb).mpr hbH
  rw [partition_eq_map, List.countP_map]
  simp only [nRegions]
  have hri : min (r / b) (H / b - 1) ≤ H / b - 1 := Nat.min_le_right _ _
  have hcj : min (c / b) (W / b - 1) ≤ W / b - 1 := Nat.min_le_right _ _
  have hk0 : min (r / b) (H / b - 1) * (W / b) + min (c / b) (W / b - 1) <
      H / b * (W / b) := by
    have h1 : min (r / b) (H / b - 1) * (W / b) + min (c / b) (W / b - 1) <
        (min (r / b) (H / b - 1) + 1) * (W / b) := by
      rw [Nat.add_mul, Nat.one_mul]
      omega
    have h2 : (min (r / b) (H / b - 1) + 1) * (W / b) ≤ H / b * (W / b) :=
      Nat.mul_le_mul_right _ (by omega)
    omega
  apply countP_range_eq_one _ _ hk0
  intro k hk
  have hkdiv : k / (W / b) < H / b := (Nat.div_lt_iff_lt_mul hnW).mpr hk
  have hkmod : k % (W / b) < W / b := Nat.mod_lt k hnW
  simp only [Function.comp]
  rw [containsB_mkSub_iff H W b _ _ r c hb hbH hbW hkdiv hkmod hr hc]
  constructor
  · rintro ⟨h1, h2⟩
    rw [← h1, ← h2, Nat.mul_comm (k / (W / b)) (W / b)]
    exact (Nat.div_add_mod k (W / b)).symm
  · intro hkk
    subst hkk
    have hcjlt : min (c / b) (W / b - 1) < W / b := by omega
    constructor
    · rw [Nat.mul_comm (min (r / b) (H / b - 1)) (W / b), Nat.mul_add_div hnW,
        Nat.div_eq_of_lt hcjlt, Nat.add_zero]
    · rw [Nat.mul_comm (min (r / b) (H / b - 1)) (W / b), Nat.mul_add_mod,
        Nat.mod_eq_of_lt hcjlt]

/-! ## Sorting lemmas -/

theorem insertSorted_perm {α : Type} (key : α → ℚ) (x : α) (l : List α) :
    List.Perm (insertSorted key x l) (x :: l) := by
  induction l with
  | nil => exact List.Perm.refl _
  | cons y ys ih =>
    simp only [insertSorted]
    by_cases h : key x ≤ key y
    · rw [if_pos h]
    · rw [if_neg h]
      exact (ih.cons y).trans (List.Perm.swap x y ys)

theorem sortByKey_perm {α : Type} (key : α → ℚ) (l : List α) :
    List.Perm (sortByKey key l) l := by
  induction l with
  | nil => exact List.Perm.refl _
  | cons x xs ih =>
    exact (insertSorted_perm key x (sortByKey key xs)).trans (ih.cons x)

theorem insertSorted_pairwise {α : Type} (key : α → ℚ) (x : α) (l : List α)
    (h : l.Pairwise (fun a b => key a ≤ key b)) :
    (insertSorted key x l).Pairwise (fun a b => key a ≤ key b) := by
  induction l with
  | nil => simp [insertSorted]
  | cons y ys ih =>
    rw [List.pairwise_cons] at h
    obtain ⟨hy, hys⟩ := h
    simp only [insertSorted]
    by_cases hxy : key x ≤ key y
    · rw [if_pos hxy]
      refine List.Pairwise.cons ?_ (List.Pairwise.cons hy hys)
      intro z hz
      rcases List.mem_cons.mp hz with rfl | hz2
      · exact hxy
      · exact le_trans hxy (hy z hz2)
    · rw [if_neg hxy]
      refine List.Pairwise.cons ?_ (ih hys)
      intro z hz
      rcases List.mem_cons.mp ((insertSorted_perm key x ys).mem_iff.mp hz) with rfl | hz2
      · exact le_of_not_le hxy
      · exact hy z hz2

theorem sortByKey_pairwise {α : Type} (key : α → ℚ) (l : List α) :
    (sortByKey key l).Pairwise (fun a b => key a ≤ key b) := by
  induction l with
  | nil => exact List.Pairwise.nil
  | cons x xs ih => exact insertSorted_pairwise key x _ ih

/-- Every element kept by an ascending sort's prefix is at most every
element of the matching suffix. -/
theorem sorted_take_le_drop {α : Type} (key : α → ℚ) (l : List α) (n : ℕ)
    (hp : l.Pairwise (fun a b => key a ≤ key b)) :
    ∀ p ∈ l.take n, ∀ q ∈ l.drop n, key p ≤ key q := by
  rw [← List.take_append_drop n l] at hp
  exact (List.pairwise_append.mp hp).2.2

theorem nSelect_le (n : ℕ) (h : n ≠ 0) : nSelect n ≤ n := by
  unfold nSelect
  have h1 : (n + 19) / 20 ≤ (20 * n) / 20 := Nat.div_le_div_right (by omega)
  omega

theorem selectedGoods_length (rs : List RegionResult)
    (h : (goodEnum rs).length ≠ 0) :
    (selectedGoods rs).length = nSelect (goodEnum rs).length := by
  unfold selectedGoods
  rw [List.length_take, (sortByKey_perm skyKey (goodEnum rs)).length_eq]
  exact min_eq_left (nSelect_le _ h)

/-! ## Enumeration and region lemmas -/

theorem enumIdx_mem_snd {α : Type} {p : ℕ × α} :
    ∀ {i : ℕ} {l : List α}, p ∈ enumIdx i l → p.2 ∈ l := by
  intro i l
  induction l generalizing i with
  | nil => intro h; cases h
  | cons x xs ih =>
    intro h
    rcases List.mem_cons.mp h with rfl | h2
    · exact List.mem_cons_self x xs
    · exact List.mem_cons_of_mem x (ih h2)

theorem enumIdx_getElem? {α : Type} (l : List α) :
    ∀ (i k : ℕ), (enumIdx i l)[k]? = l[k]?.map (fun a => (i + k, a)) := by
  induction l with
  | nil => intro i k; simp [enumIdx]
  | cons x xs ih =>
    intro i k
    cases k with
    | zero => simp [enumIdx]
    | succ k =>
      simp only [enumIdx, List.getElem?_cons_succ, ih (i + 1) k]
      cases xs[k]? with
      | none => rfl
      | some a => simp [Nat.add_assoc, Nat.add_comm 1 k]

/-- Cell membership in a sub-region is exactly the slice bounds. -/
theorem mem_regionCells {s : SubRegion} {p : ℕ × ℕ} :
    p ∈ regionCells s ↔
      (s.row_start ≤ p.1 ∧ p.1 < s.row_end ∧ s.col_start ≤ p.2 ∧ p.2 < s.col_end) := by
  unfold regionCells
  simp only [List.mem_flatMap, List.mem_map, List.mem_range'_1]
  constructor
  · rintro ⟨r, hr, c, hc, rfl⟩
    exact ⟨hr.1, by omega, hc.1, by omega⟩
  · rintro ⟨h1, h2, h3, h4⟩
    exact ⟨p.1, ⟨h1, by omega⟩, p.2, ⟨h3, by omega⟩, rfl⟩

/-- Inside a valid partition every sub-region has in-grid, nonempty
cells. -/
theorem partition_cells_inGrid {H W b : ℕ} (hb : 0 < b) (hbH : b ≤ H) (hbW : b ≤ W)
    {s : SubRegion} (hs : s ∈ partition H W b) :
    (∀ p ∈ regionCells s, p.1 < H ∧ p.2 < W) ∧ regionCells s ≠ [] := by
  obtain ⟨i, hi, j, hj, rfl⟩ := mem_partition.mp hs
  simp only [nRegions] at hi hj
  have hrow : i * b + b ≤ H := by
    calc i * b + b = (i + 1) * b := by ring
      _ ≤ H / b * b := Nat.mul_le_mul_right b (by omega)
      _ ≤ H := Nat.div_mul_le_self H b
  have hcol : j * b + b ≤ W := by
    calc j * b + b = (j + 1) * b := by ring
      _ ≤ W / b * b := Nat.mul_le_mul_right b (by omega)
      _ ≤ W := Nat.div_mul_le_self W b
  have hrEnd : (mkSub H W b i j).row_end ≤ H := by
    simp only [mkSub, nRegions]
    split
    · exact le_refl H
    · calc (i + 1) * b = i * b + b := by ring
        _ ≤ H := hrow
  have hcEnd : (mkSub H W b i j).col_end ≤ W := by
    simp only [mkSub, nRegions]
    split
    · exact le_refl W
    · calc (j + 1) * b = j * b + b := by ring
        _ ≤ W := hcol
  have hrLt : (mkSub H W b i j).row_start < (mkSub H W b i j).row_end := by
    simp only [mkSub, nRegions]
    split
    · omega
    · calc i * b < i * b + b := by omega
        _ = (i + 1) * b := by ring
  have hcLt : (mkSub H W b i j).col_start < (mkSub H W b i j).col_end := by
    simp only [mkSub, nRegions]
    split
    · omega
    · calc j * b < j * b + b := by omega
        _ = (j + 1) * b := by ring
  constructor
  · intro p hp
    have hb2 := mem_regionCells.mp hp
    exact ⟨lt_of_lt_of_le hb2.2.1 hrEnd, lt_of_lt_of_le hb2.2.2.2 hcEnd⟩
  · apply List.ne_nil_of_mem (a := ((mkSub H W b i j).row_start, (mkSub H W b i j).col_start))
    exact mem_regionCells.mpr ⟨le_refl _, hrLt, le_refl _, hcLt⟩

/-- A fully flagged, nonempty sub-region is rejected by the QualityFilter
whenever the mask is in use and the threshold is below 1. -/
theorem processRegion_mask_of_allFlagged (g : Grid) (dq : ℕ → ℕ → ℕ) (cfg : Config)
    (s : SubRegion) (hDQ : cfg.has_DQ = true) (ht : cfg.dq_fraction < 1)
    (hflag : ∀ p ∈ regionCells s, dq p.1 p.2 ≠ 0) (hne : regionCells s ≠ []) :
    processRegion g dq cfg s = maskSentinel s := by
  have hcount : (regionCells s).countP (fun p => decide (dq p.1 p.2 ≠ 0)) =
      (regionCells s).length :=
    List.countP_eq_length.mpr (fun a ha => decide_eq_true (hflag a ha))
  have hlen : ((regionCells s).length : ℚ) ≠ 0 :=
    Nat.cast_ne_zero.mpr (fun h0 => hne (List.length_eq_zero.mp h0))
  have hfr : flaggedFraction dq s = 1 := by
    unfold flaggedFraction
    rw [hcount]
    exact div_self hlen
  unfold processRegion
  rw [if_pos ⟨hDQ, by rw [hfr]; exact ht⟩]

/-- Outside the QualityFilter gate a region is classified good or
source-contaminated, never mask-contaminated. -/
theorem processRegion_cls_of_not_gate (g : Grid) (dq : ℕ → ℕ → ℕ) (cfg : Config)
    (s : SubRegion)
    (h : ¬(cfg.has_DQ = true ∧ cfg.dq_fraction < flaggedFraction dq s)) :
    (processRegion g dq cfg s).cls = .sourceContaminated ∨
      (processRegion g dq cfg s).cls = .good := by
  unfold processRegion
  rw [if_neg h]
  cases clippedStatistic cfg (unflaggedValues g dq cfg s) with
  | none => exact Or.inl rfl
  | some st =>
    by_cases hsl : isSourceLike cfg st = true
    · exact Or.inl (by simp [hsl])
    · exact Or.inr (by simp [hsl])

/-! ## Claim theorems -/

/-- C2 (amended): for every grid `(H, W)` and positive `bin_size` not
exceeding either dimension, the partitioner produces exactly
`floor(H/bin_size) * floor(W/bin_size)` sub-regions in row-major order,
their union tiles the grid with no gaps and no overlaps, and every
region has side `bin_size` except the last along each axis, whose far
edge is extended to the axis length to absorb the remainder pixels. -/
theorem C2_partitioner_tiling (H W b : ℕ) (hb : 0 < b) (hbH : b ≤ H) (hbW : b ≤ W) :
    (partition H W b).length = (H / b) * (W / b) ∧
    partition H W b = (List.range (H / b * (W / b))).map
      (fun k => mkSub H W b (k / (W / b)) (k % (W / b))) ∧
    (∀ r, r < H → ∀ c, c < W →
      (partition H W b).countP (fun s => containsB s r c) = 1) ∧
    (∀ i, i < H / b → ∀ j, j < W / b →
      (mkSub H W b i j).row_start = i * b ∧
      (mkSub H W b i j).col_start = j * b ∧
      (i + 1 < H / b → (mkSub H W b i j).row_end = i * b + b) ∧
      (i + 1 = H / b → (mkSub H W b i j).row_end = H) ∧
      (j + 1 < W / b → (mkSub H W b i j).col_end = j * b + b) ∧
      (j + 1 = W / b → (mkSub H W b i j).col_end = W)) := by
  refine ⟨partition_length H W b, partition_eq_map H W b, ?_, ?_⟩
  · intro r hr c hc
    exact partition_tiles H W b r c hb hbH hbW hr hc
  · intro i hi j hj
    refine ⟨rfl, rfl, ?_, ?_, ?_, ?_⟩
    · intro hlt
      simp only [mkSub, nRegions, if_neg (by omega : ¬ i + 1 = H / b)]
      ring
    · intro heq
      simp only [mkSub, nRegions, if_pos heq]
    · intro hlt
      simp only [mkSub, nRegions, if_neg (by omega : ¬ j + 1 = W / b)]
      ring
    · intro heq
      simp only [mkSub, nRegions, if_pos heq]

/-- C2 counterexample: on a 5x5 grid with bin size 2 the partitioner
produces 4 regions, not the `ceil(5/2) * ceil(5/2) = 9` the claim
asserts. -/
theorem C2_count_counterexample :
    (partition 5 5 2).length ≠ ((5 + 2 - 1) / 2) * ((5 + 2 - 1) / 2) := by decide

/-- C2 witness: concrete instantiation of the amended theorem. -/
theorem C2_partitioner_tiling_witness :
    (partition 6 4 2).length = 6 / 2 * (4 / 2) :=
  (C2_partitioner_tiling 6 4 2 (by decide) (by decide) (by decide)).1

/-- C7: the iterative clipping loop terminates with at most `maxIter`
iterations, returns the iteration count actually performed together with
the active set it produced, stops at the first iteration whose clip
leaves the active-set size unchanged, and otherwise runs until the cap. -/
theorem C7_clip_loop_terminates (cfg : Config) (a : List ℚ) (maxIter : ℕ) :
    (clipRun cfg a maxIter).2 ≤ maxIter ∧
    (clipRun cfg a maxIter).1 = (clipStep cfg)^[(clipRun cfg a maxIter).2] a ∧
    (∀ k, k + 1 < (clipRun cfg a maxIter).2 →
      ((clipStep cfg)^[k + 1] a).length ≠ ((clipStep cfg)^[k] a).length) ∧
    ((clipRun cfg a maxIter).2 = maxIter ∨
      (0 < (clipRun cfg a maxIter).2 ∧
        ((clipStep cfg)^[(clipRun cfg a maxIter).2] a).length =
          ((clipStep cfg)^[(clipRun cfg a maxIter).2 - 1] a).length)) := by
  induction maxIter generalizing a with
  | zero =>
    refine ⟨le_refl _, rfl, ?_, Or.inl rfl⟩
    intro k hk
    have hk0 : k + 1 < 0 := hk
    omega
  | succ fuel ih =>
    simp only [clipRun]
    by_cases hc : (clipStep cfg a).length = a.length
    · rw [if_pos hc]
      refine ⟨by omega, (congrFun (Function.iterate_one (clipStep cfg)) a).symm,
        by omega, Or.inr ⟨by omega, ?_⟩⟩
      rw [congrFun (Function.iterate_one (clipStep cfg)) a]
      simpa using hc
    · rw [if_neg hc]
      obtain ⟨ih1, ih2, ih3, ih4⟩ := ih (clipStep cfg a)
      refine ⟨by omega, ?_, ?_, ?_⟩
      · rw [ih2, ← Function.iterate_succ_apply]
      · intro k hk
        cases k with
        | zero =>
          rw [congrFun (Function.iterate_one (clipStep cfg)) a]
          simpa using hc
        | succ k =>
          have := ih3 k (by omega)
          rw [← Function.iterate_succ_apply, ← Function.iterate_succ_apply] at this
          exact this
      · rcases ih4 with h | ⟨hpos, heq⟩
        · exact Or.inl (by omega)
        · refine Or.inr ⟨by omega, ?_⟩
          have h1 : (clipStep cfg)^[(clipRun cfg (clipStep cfg a) fuel).2] (clipStep cfg a) =
              (clipStep cfg)^[(clipRun cfg (clipStep cfg a) fuel).2 + 1] a :=
            (Function.iterate_succ_apply (clipStep cfg) _ a).symm
          have h2 : (clipStep cfg)^[(clipRun cfg (clipStep cfg a) fuel).2 - 1] (clipStep cfg a) =
              (clipStep cfg)^[(clipRun cfg (clipStep cfg a) fuel).2] a := by
            rw [← Function.iterate_succ_apply]
            congr 1
            omega
          rw [h1, h2] at heq
          simpa using heq

/-- C7 witness: concrete instantiation of the termination bound. -/
theorem C7_clip_loop_terminates_witness :
    (clipRun cfgBase [1, 2, 3] 5).2 ≤ 5 :=
  (C7_clip_loop_terminates cfgBase [1, 2, 3] 5).1

/-- C3: with the quality mask in use a region is classified
mask-contaminated exactly when its flagged fraction strictly exceeds
`dq_fraction`; a mask-contaminated region receives no further processing
(its result is the fixed sentinel); with no quality information declared
no region is ever mask-contaminated. -/
theorem C3_quality_filter (g : Grid) (dq : ℕ → ℕ → ℕ) (cfg : Config) (s : SubRegion) :
    (cfg.has_DQ = true →
      ((processRegion g dq cfg s).cls = .maskContaminated ↔
        cfg.dq_fraction < flaggedFraction dq s)) ∧
    (cfg.has_DQ = false → (processRegion g dq cfg s).cls ≠ .maskContaminated) ∧
    ((processRegion g dq cfg s).cls = .maskContaminated →
      processRegion g dq cfg s = maskSentinel s) := by
  by_cases hgate : cfg.has_DQ = true ∧ cfg.dq_fraction < flaggedFraction dq s
  · have hres : processRegion g dq cfg s = maskSentinel s := by
      unfold processRegion
      rw [if_pos hgate]
    refine ⟨fun _ => ⟨fun _ => hgate.2, fun _ => by rw [hres]; rfl⟩, ?_, fun _ => hres⟩
    intro hfalse
    rw [hgate.1] at hfalse
    cases hfalse
  · have hcls := processRegion_cls_of_not_gate g dq cfg s hgate
    have hne : (processRegion g dq cfg s).cls ≠ .maskContaminated := by
      rcases hcls with h | h <;> rw [h] <;> intro hx <;> cases hx
    refine ⟨?_, fun _ => hne, fun hmask => absurd hmask hne⟩
    intro hDQ
    constructor
    · intro hmask
      exact absurd hmask hne
    · intro hlt
      exact absurd ⟨hDQ, hlt⟩ hgate

/-- The flagged fraction of the fully flagged 2x2 region is 1. -/
theorem flaggedFraction_dqOne_s00 : flaggedFraction dqOne s00 = 1 := by
  have h1 : (regionCells s00).countP (fun p => decide (dqOne p.1 p.2 ≠ 0)) = 4 := by decide
  have h2 : (regionCells s00).length = 4 := by decide
  unfold flaggedFraction
  rw [h1, h2]
  norm_num

/-- C3 witness: on a fully flagged 2x2 region with threshold 0.2 the
filter fires. -/
theorem C3_quality_filter_witness :
    (processRegion gConst dqOne cfgDQ s00).cls = Classification.maskContaminated := by
  refine ((C3_quality_filter gConst dqOne cfgDQ s00).1 rfl).mpr ?_
  rw [flaggedFraction_dqOne_s00]
  norm_num [cfgDQ, cfgBase]

/-- C4 counterexample: the claim quantifies over every threshold in
`[0, 1]`, but at threshold exactly 1 a fully flagged region has flagged
fraction 1, which is not strictly greater than 1, so the region is not
classified mask-contaminated. -/
theorem C4_threshold_one_counterexample :
    cfgDQ1.has_DQ = true ∧ cfgDQ1.dq_fraction = 1 ∧
    (∀ p ∈ regionCells s00, dqOne p.1 p.2 ≠ 0) ∧
    (processRegion gConst dqOne cfgDQ1 s00).cls ≠ Classification.maskContaminated := by
  have hgate : ¬(cfgDQ1.has_DQ = true ∧ cfgDQ1.dq_fraction < flaggedFraction dqOne s00) := by
    rw [flaggedFraction_dqOne_s00]
    rintro ⟨-, hlt⟩
    have h1 : cfgDQ1.dq_fraction = 1 := rfl
    rw [h1] at hlt
    exact lt_irrefl 1 hlt
  have hcls := processRegion_cls_of_not_gate gConst dqOne cfgDQ1 s00 hgate
  refine ⟨rfl, rfl, ?_, ?_⟩
  · intro p _
    simp [dqOne]
  · rcases hcls with h | h <;> rw [h] <;> intro hx <;> cases hx

/-- C4 (amended): for every sub-region of the partition whose
quality-mask slice is entirely flagged, and every threshold
`dq_fraction ∈ [0, 1)` with the mask in use, the region is classified
mask-contaminated and its index appears in `badpx_ind`, regardless of
the underlying pixel values. -/
theorem C4_all_flagged_badpx (g : Grid) (dq : ℕ → ℕ → ℕ) (cfg : Config)
    (s : SubRegion) (k : ℕ)
    (hs : (partition g.H g.W cfg.bin_size)[k]? = some s)
    (hDQ : cfg.has_DQ = true) (h0 : 0 ≤ cfg.dq_fraction) (h1 : cfg.dq_fraction < 1)
    (hflag : ∀ p ∈ regionCells s, dq p.1 p.2 ≠ 0)
    (hne : regionCells s ≠ []) :
    (processRegion g dq cfg s).cls = Classification.maskContaminated ∧
      k ∈ badpxIndices (regionResults g dq cfg) := by
  have hmask := processRegion_mask_of_allFlagged g dq cfg s hDQ h1 hflag hne
  refine ⟨by rw [hmask]; rfl, ?_⟩
  have hres : (regionResults g dq cfg)[k]? = some (processRegion g dq cfg s) := by
    unfold regionResults
    rw [List.getElem?_map, hs]
    rfl
  have henum : (enumIdx 0 (regionResults g dq cfg))[k]? =
      some (k, processRegion g dq cfg s) := by
    rw [enumIdx_getElem? (regionResults g dq cfg) 0 k, hres]
    simp
  have hmem : (k, processRegion g dq cfg s) ∈ enumIdx 0 (regionResults g dq cfg) :=
    List.getElem?_mem henum
  unfold badpxIndices badpxEnum
  refine List.mem_map.mpr ⟨(k, processRegion g dq cfg s), ?_, rfl⟩
  refine List.mem_filter.mpr ⟨hmem, ?_⟩
  rw [hmask]
  rfl

/-- C4 witness: concrete instantiation of the amended theorem on the
fully flagged 2x2 image at threshold 0.2. -/
theorem C4_all_flagged_badpx_witness :
    (processRegion gConst dqOne cfgDQ s00).cls = Classification.maskContaminated ∧
      0 ∈ badpxIndices (regionResults gConst dqOne cfgDQ) := by
  refine C4_all_flagged_badpx gConst dqOne cfgDQ s00 0 (by decide) rfl
    (by norm_num [cfgDQ, cfgBase]) (by norm_num [cfgDQ, cfgBase]) ?_ (by decide)
  intro p _
  simp [dqOne]

/-- C5: with valid parameters the estimation call fails, and fails with
`NoUsableRegions` carrying the region counts, exactly when the number of
good regions is zero; and on an image whose quality grid flags every
pixel (mask in use, threshold below 1) the good-region count is zero. -/
theorem C5_no_usable_regions (g : Grid) (dq : ℕ → ℕ → ℕ) (cfg : Config)
    (h1 : 0 < cfg.bin_size) (h2 : cfg.bin_size ≤ g.H) (h3 : cfg.bin_size ≤ g.W)
    (h4 : 0 ≤ cfg.dq_fraction) (h5 : cfg.dq_fraction ≤ 1) :
    ((∃ nt nb nbp ng, estimate_sky g dq cfg =
        Except.error (SkyError.noUsableRegions nt nb nbp ng)) ↔
      (goodEnum (regionResults g dq cfg)).length = 0) ∧
    ((goodEnum (regionResults g dq cfg)).length = 0 →
      estimate_sky g dq cfg = Except.error (SkyError.noUsableRegions
        (regionResults g dq cfg).length (badEnum (regionResults g dq cfg)).length
        (badpxEnum (regionResults g dq cfg)).length 0)) ∧
    ((∀ r c, r < g.H → c < g.W → dq r c ≠ 0) → cfg.has_DQ = true →
      cfg.dq_fraction < 1 → (goodEnum (regionResults g dq cfg)).length = 0) := by
  have hest : estimate_sky g dq cfg =
      aggregate cfg.sqrt_fn (regionResults g dq cfg) (partition g.H g.W cfg.bin_size) := by
    unfold estimate_sky
    rw [if_pos ⟨h1, h2, h3, h4, h5⟩]
  refine ⟨⟨?_, ?_⟩, ?_, ?_⟩
  · rintro ⟨nt, nb, nbp, ng, heq⟩
    by_contra hg
    rw [hest] at heq
    unfold aggregate at heq
    rw [if_neg hg] at heq
    cases heq
  · intro hg
    rw [hest]
    unfold aggregate
    rw [if_pos hg]
    exact ⟨_, _, _, _, rfl⟩
  · intro hg
    rw [hest]
    unfold aggregate
    rw [if_pos hg, hg]
  · intro hall hDQ hlt
    rw [List.length_eq_zero]
    unfold goodEnum
    rw [List.filter_eq_nil_iff]
    intro p hp
    have hsnd : p.2 ∈ regionResults g dq cfg := enumIdx_mem_snd hp
    unfold regionResults at hsnd
    obtain ⟨s, hs, hps⟩ := List.mem_map.mp hsnd
    obtain ⟨hgrid, hne⟩ := partition_cells_inGrid h1 h2 h3 hs
    have hflag : ∀ q ∈ regionCells s, dq q.1 q.2 ≠ 0 := by
      intro q hq
      exact hall q.1 q.2 (hgrid q hq).1 (hgrid q hq).2
    have hmask := processRegion_mask_of_allFlagged g dq cfg s hDQ hlt hflag hne
    rw [← hps, hmask]
    simp [maskSentinel]

/-- C5 witness: the fully flagged 2x2 image with threshold 0.2 fails
with `NoUsableRegions`. -/
theorem C5_no_usable_regions_witness :
    ∃ nt nb nbp ng, estimate_sky gConst dqOne cfgDQ =
      Except.error (SkyError.noUsableRegions nt nb nbp ng) := by
  have h := C5_no_usable_regions gConst dqOne cfgDQ (by decide) (by decide) (by decide)
    (by norm_num [cfgDQ, cfgBase]) (by norm_num [cfgDQ, cfgBase])
  refine h.1.mpr (h.2.2 ?_ rfl (by norm_num [cfgDQ, cfgBase]))
  intro r c _ _
  simp [dqOne]

/-- C6: a sub-region whose iterative clipping exhausts all unflagged
pixels is reported as contaminated with sentinel (`none`) values in
place of numeric sky values; and with valid parameters the whole-image
call either succeeds or fails with `NoUsableRegions` — no per-region
failure aborts the estimate. -/
theorem C6_local_failure_recovered (g : Grid) (dq : ℕ → ℕ → ℕ) (cfg : Config)
    (s : SubRegion) :
    ((clipRun cfg (unflaggedValues g dq cfg s) cfg.max_iter).1 = [] →
      (processRegion g dq cfg s).cls ≠ Classification.good ∧
      (processRegion g dq cfg s).sky_med = none ∧
      (processRegion g dq cfg s).rms_med = none ∧
      (processRegion g dq cfg s).sky_mean = none ∧
      (processRegion g dq cfg s).rms_mean = none) ∧
    (0 < cfg.bin_size → cfg.bin_size ≤ g.H → cfg.bin_size ≤ g.W →
      0 ≤ cfg.dq_fraction → cfg.dq_fraction ≤ 1 →
      (∃ rep, estimate_sky g dq cfg = Except.ok rep) ∨
      (∃ nt nb nbp ng, estimate_sky g dq cfg =
        Except.error (SkyError.noUsableRegions nt nb nbp ng))) := by
  constructor
  · intro hempty
    have hstat : clippedStatistic cfg (unflaggedValues g dq cfg s) = none := by
      unfold clippedStatistic
      rw [if_pos (by rw [hempty]; rfl)]
    unfold processRegion
    by_cases hgate : cfg.has_DQ = true ∧ cfg.dq_fraction < flaggedFraction dq s
    · rw [if_pos hgate]
      exact ⟨(by intro hx; cases hx), rfl, rfl, rfl, rfl⟩
    · rw [if_neg hgate, hstat]
      exact ⟨(by intro hx; cases hx), rfl, rfl, rfl, rfl⟩
  · intro h1 h2 h3 h4 h5
    unfold estimate_sky
    rw [if_pos ⟨h1, h2, h3, h4, h5⟩]
    unfold aggregate
    by_cases hg : (goodEnum (regionResults g dq cfg)).length = 0
    · rw [if_pos hg]
      exact Or.inr ⟨_, _, _, _, rfl⟩
    · rw [if_neg hg]
      exact Or.inl ⟨_, rfl⟩

/-- C6 witness: a region with every pixel flagged, at threshold exactly
1, passes the QualityFilter with an empty unflagged set, and its result
is contaminated with sentinel values. -/
theorem C6_local_failure_recovered_witness :
    (processRegion gConst dqOne cfgDQ1 s00).cls ≠ Classification.good ∧
      (processRegion gConst dqOne cfgDQ1 s00).sky_med = none := by
  have huf : unflaggedValues gConst dqOne cfgDQ1 s00 = [] := by decide
  have hclip : (clipRun cfgDQ1 (unflaggedValues gConst dqOne cfgDQ1 s00)
      cfgDQ1.max_iter).1 = [] := by
    rw [huf]
    decide
  have h := (C6_local_failure_recovered gConst dqOne cfgDQ1 s00).1 hclip
  exact ⟨h.1, h.2.1⟩

/-- C9: the estimation entry point is deterministic — two invocations
with identical inputs and identical configuration yield identical
results (there is no randomness and no ordering non-determinism in the
model). -/
theorem C9_deterministic (g1 g2 : Grid) (dq1 dq2 : ℕ → ℕ → ℕ) (cfg1 cfg2 : Config)
    (hg : g1 = g2) (hdq : dq1 = dq2) (hcfg : cfg1 = cfg2) :
    estimate_sky g1 dq1 cfg1 = estimate_sky g2 dq2 cfg2 ∧
    calculate_sky g1 dq1 cfg1 = calculate_sky g2 dq2 cfg2 := by
  subst hg
  subst hdq
  subst hcfg
  exact ⟨rfl, rfl⟩

/-- C9 witness: concrete instantiation on the constant test image. -/
theorem C9_deterministic_witness :
    estimate_sky gConst dqZero cfgBase = estimate_sky gConst dqZero cfgBase :=
  (C9_deterministic gConst gConst dqZero dqZero cfgBase cfgBase rfl rfl rfl).1

/-- C1: for every result sequence with at least one good region the
aggregator succeeds; the estimate set is the good regions ranked by
median-based sky value ascending (a permutation of the good set, sorted)
truncated to the lowest 5% rounded up to at least one region; and the
four outputs are the medians of the median-based and mean-based sky/rms
values of that selected set. -/
theorem C1_aggregator_lowest5 (sqrtF : ℚ → ℚ) (rs : List RegionResult)
    (bounds : List SubRegion) (h : (goodEnum rs).length ≠ 0) :
    ∃ rep, aggregate sqrtF rs bounds = Except.ok rep ∧
      List.Perm (sortByKey skyKey (goodEnum rs)) (goodEnum rs) ∧
      (sortByKey skyKey (goodEnum rs)).Pairwise (fun p q => skyKey p ≤ skyKey q) ∧
      selectedGoods rs =
        (sortByKey skyKey (goodEnum rs)).take (nSelect (goodEnum rs).length) ∧
      nSelect (goodEnum rs).length = max 1 (((goodEnum rs).length + 19) / 20) ∧
      (selectedGoods rs).length = nSelect (goodEnum rs).length ∧
      (∀ p ∈ selectedGoods rs,
        ∀ q ∈ (sortByKey skyKey (goodEnum rs)).drop (nSelect (goodEnum rs).length),
          skyKey p ≤ skyKey q) ∧
      rep.calc_sky = medianQ ((selectedGoods rs).map (fun p => p.2.sky_med.getD 0)) ∧
      rep.calc_rms = medianQ ((selectedGoods rs).map (fun p => p.2.rms_med.getD 0)) ∧
      rep.calc_sky_mean =
        medianQ ((selectedGoods rs).map (fun p => p.2.sky_mean.getD 0)) ∧
      rep.calc_rms_mean =
        medianQ ((selectedGoods rs).map (fun p => p.2.rms_mean.getD 0)) ∧
      rep.lowest5perc_ind = (selectedGoods rs).map Prod.fst := by
  simp only [aggregate, if_neg h]
  exact ⟨_, rfl, sortByKey_perm skyKey (goodEnum rs),
    sortByKey_pairwise skyKey (goodEnum rs), rfl, rfl, selectedGoods_length rs h,
    sorted_take_le_drop skyKey (sortByKey skyKey (goodEnum rs))
      (nSelect (goodEnum rs).length) (sortByKey_pairwise skyKey (goodEnum rs)),
    rfl, rfl, rfl, rfl, rfl⟩

/-- C1 witness: concrete instantiation of the aggregator theorem on a
one-good-region result list. -/
theorem C1_aggregator_lowest5_witness :
    ∃ rep, aggregate (fun q => q) rsGood [] = Except.ok rep := by
  obtain ⟨rep, hrep, -⟩ := C1_aggregator_lowest5 (fun q => q) rsGood [] (by decide)
  exact ⟨rep, hrep⟩

/-- C8: in a successful aggregation the report's `mean_x_pos`,
`mean_y_pos`, `std_x_pos`, `std_y_pos` are the mean and the standard
deviation (square root of the mean squared deviation, via the
configured root) of the centroids of the selected lowest-5% set, whose
members all come from the good set. -/
theorem C8_centroid_diagnostics (sqrtF : ℚ → ℚ) (rs : List RegionResult)
    (bounds : List SubRegion) (h : (goodEnum rs).length ≠ 0) :
    ∃ rep, aggregate sqrtF rs bounds = Except.ok rep ∧
      rep.mean_x_pos = meanQ ((selectedGoods rs).map (fun p => p.2.centroid_col)) ∧
      rep.mean_y_pos = meanQ ((selectedGoods rs).map (fun p => p.2.centroid_row)) ∧
      rep.std_x_pos = sqrtF (varAboutQ
        (meanQ ((selectedGoods rs).map (fun p => p.2.centroid_col)))
        ((selectedGoods rs).map (fun p => p.2.centroid_col))) ∧
      rep.std_y_pos = sqrtF (varAboutQ
        (meanQ ((selectedGoods rs).map (fun p => p.2.centroid_row)))
        ((selectedGoods rs).map (fun p => p.2.centroid_row))) ∧
      (∀ p ∈ selectedGoods rs, p ∈ goodEnum rs) := by
  simp only [aggregate, if_neg h]
  refine ⟨_, rfl, rfl, rfl, rfl, rfl, ?_⟩
  intro p hp
  have hp2 : p ∈ sortByKey skyKey (goodEnum rs) :=
    List.take_subset (nSelect (goodEnum rs).length) (sortByKey skyKey (goodEnum rs)) hp
  exact (sortByKey_perm skyKey (goodEnum rs)).mem_iff.mp hp2

/-- C8 witness: concrete instantiation of the centroid-diagnostics
theorem. -/
theorem C8_centroid_diagnostics_witness :
    ∃ rep, aggregate (fun q => q) rsGood [s00] = Except.ok rep ∧
      rep.mean_x_pos = meanQ ((selectedGoods rsGood).map (fun p => p.2.centroid_col)) := by
  obtain ⟨rep, hrep, hmean, -⟩ :=
    C8_centroid_diagnostics (fun q => q) rsGood [s00] (by decide)
  exact ⟨rep, hrep, hmean⟩

/-- C10: `calculate_sky` wraps the report in one-element sequences: it
equals `estimate_sky` post-composed with the wrapping, the wrapping puts
every field of the report in a one-element list whose position 0 holds
the documented value, and every successful dictionary arises as such a
wrapping. -/
theorem C10_singleton_fields (g : Grid) (dq : ℕ → ℕ → ℕ) (cfg : Config) :
    calculate_sky g dq cfg = (estimate_sky g dq cfg).map skyDictOf ∧
    (∀ rep : SkyReport,
      (skyDictOf rep).calc_sky = [rep.calc_sky] ∧
      (skyDictOf rep).calc_rms = [rep.calc_rms] ∧
      (skyDictOf rep).calc_sky_mean = [rep.calc_sky_mean] ∧
      (skyDictOf rep).calc_rms_mean = [rep.calc_rms_mean] ∧
      (skyDictOf rep).N_total_regions = [rep.N_total_regions] ∧
      (skyDictOf rep).N_bad_regions = [rep.N_bad_regions] ∧
      (skyDictOf rep).N_bad_px_regions = [rep.N_bad_px_regions] ∧
      (skyDictOf rep).N_good_regions = [rep.N_good_regions] ∧
      (skyDictOf rep).sky_arr = [rep.sky_arr] ∧
      (skyDictOf rep).rms_arr = [rep.rms_arr] ∧
      (skyDictOf rep).cutouts = [rep.region_bounds] ∧
      (skyDictOf rep).lowest5perc_ind = [rep.lowest5perc_ind] ∧
      (skyDictOf rep).bad_ind = [rep.bad_ind] ∧
      (skyDictOf rep).badpx_ind = [rep.badpx_ind] ∧
      (skyDictOf rep).mean_x_pos = [rep.mean_x_pos] ∧
      (skyDictOf rep).mean_y_pos = [rep.mean_y_pos] ∧
      (skyDictOf rep).std_x_pos = [rep.std_x_pos] ∧
      (skyDictOf rep).std_y_pos = [rep.std_y_pos] ∧
      (skyDictOf rep).calc_sky.length = 1 ∧
      (skyDictOf rep).cutouts.length = 1 ∧
      (skyDictOf rep).lowest5perc_ind.length = 1 ∧
      (skyDictOf rep).bad_ind.length = 1 ∧
      (skyDictOf rep).badpx_ind.length = 1 ∧
      (skyDictOf rep).calc_sky.getD 0 0 = rep.calc_sky ∧
      (skyDictOf rep).calc_rms.getD 0 0 = rep.calc_rms ∧
      (skyDictOf rep).cutouts.getD 0 [] = rep.region_bounds ∧
      (skyDictOf rep).lowest5perc_ind.getD 0 [] = rep.lowest5perc_ind ∧
      (skyDictOf rep).bad_ind.getD 0 [] = rep.bad_ind ∧
      (skyDictOf rep).badpx_ind.getD 0 [] = rep.badpx_ind) ∧
    (∀ d : SkyDict, calculate_sky g dq cfg = Except.ok d →
      ∃ rep, estimate_sky g dq cfg = Except.ok rep ∧ d = skyDictOf rep) := by
  refine ⟨rfl, ?_, ?_⟩
  · intro rep
    exact ⟨rfl, rfl, rfl, rfl, rfl, rfl, rfl, rfl, rfl, rfl, rfl, rfl, rfl, rfl,
      rfl, rfl, rfl, rfl, rfl, rfl, rfl, rfl, rfl, rfl, rfl, rfl, rfl, rfl, rfl⟩
  · intro d hd
    unfold calculate_sky at hd
    cases he : estimate_sky g dq cfg with
    | error e => rw [he] at hd; cases hd
    | ok rep =>
      rw [he] at hd
      cases hd
      exact ⟨rep, rfl, rfl⟩

/-- C10 witness: concrete instantiation on the constant test image. -/
theorem C10_singleton_fields_witness :
    calculate_sky gConst dqZero cfgBase =
      (estimate_sky gConst dqZero cfgBase).map skyDictOf :=
  (C10_singleton_fields gConst dqZero cfgBase).1
